import Mathlib

/-!
Verification of the axis/tick engine of the kivy-garden `graph` widget
(`kivy_garden/graph/__init__.py`), shallowly embedded over exact rational
arithmetic.  Python floats are modelled as `ℚ`; the transcendental library
functions `math.log10`, float `10.0 ** x` and `Decimal` `10 ** x` are
irrational-valued in general and are therefore modelled as uninterpreted
function parameters (an `Oracles` record).  Theorems about code paths that
consult them carry hypotheses pinning the oracle at exactly the rational
points the trace evaluates it on (where the real functions are exact), so
each theorem holds for every interpretation consistent with real `log10`
and `10 ** x`.
-/

/-- The transcendental functions used by `_get_ticks`, `to_data` and the
plot transforms: `lg` models `math.log10`, `p10` models float `10.0 ** x`
for a float exponent, `p10d` models `10 ** Decimal x` (line 454). -/
structure Oracles where
  lg : ℚ → ℚ
  p10 : ℚ → ℚ
  p10d : ℚ → ℚ

/-- Python `int(x)` on a float: truncation toward zero. -/
def pyint (q : ℚ) : ℤ := if 0 ≤ q then ⌊q⌋ else ⌈q⌉

/-- Python float modulo `a % b` for `b > 0`: `a - floor(a/b)*b`. -/
def pymod (a b : ℚ) : ℚ := a - ⌊a / b⌋ * b

/-- The in-range test of line 411/412: `s_min <= p <= s_max or
s_min >= p >= s_max` (direction-agnostic interval membership). -/
def inRange (s_min s_max p : ℚ) : Bool :=
  (s_min ≤ p ∧ p ≤ s_max) ∨ (p ≤ s_min ∧ s_max ≤ p)

/-- A tick specification: Python passes either a number or a
list/tuple for each of `major` and `minor` (`Graph.x_ticks_major` etc.). -/
inductive TickSpec where
  | num : ℚ → TickSpec
  | lst : List ℚ → TickSpec
deriving DecidableEq

/-- Lines 406-407: if exactly one of major/minor is a list/tuple, `minor`
is replaced by `type(major)()`, i.e. the number `0.0` when `major` is a
number and the empty list when `major` is a list. -/
def fixMinor (major minor : TickSpec) : TickSpec :=
  match major, minor with
  | .num _, .lst _ => .num 0
  | .lst _, .num _ => .lst []
  | _, _ => minor

/-- Python `sorted(l, reverse=rev)` on floats.  A sorted permutation of a
list of totally ordered values is unique, so any correct sort models
`sorted` exactly; we use `List.insertionSort`. -/
def pysorted (rev : Bool) (l : List ℚ) : List ℚ :=
  if rev then l.insertionSort (fun a b => b ≤ a)
  else l.insertionSort (fun a b => a ≤ b)

/-- One iteration of the linear tick loop, lines 495-501: tick `m` goes to
the minor list when `minor and m % minor` is truthy, else to the major
list.  State is `(points_major, k, points_minor, k2)`. -/
def tickStep (minor tick_dist s_min : ℚ) (st : List ℚ × ℕ × List ℚ × ℕ)
    (m : ℕ) : List ℚ × ℕ × List ℚ × ℕ :=
  let (pm, k, pn, k2) := st
  if minor ≠ 0 ∧ pymod (m : ℚ) minor ≠ 0 then
    (pm, k, pn.set k2 ((m : ℚ) * tick_dist + s_min), k2 + 1)
  else
    (pm.set k ((m : ℚ) * tick_dist + s_min), k + 1, pn, k2)

/-- Lines 485-501 (numeric linear branch of `_get_ticks`), followed by the
`del points_major[k:]` / `del points_minor[k2:]` truncation of lines
504-505.  `minor` has already been clamped by `max(minor, 0)` (line 417).
Python preallocates the lists with `[0] * n` (empty when `n` is negative)
and writes through running indices `k`, `k2`. -/
def linearTicks (major minor s_min s_max : ℚ) : List ℚ × List ℚ :=
  let tick_dist := major / (if minor ≠ 0 then minor else 1)
  let n_ticks := (⌊|(s_max - s_min) / tick_dist|⌋).toNat + 1
  let tick_dist2 := |tick_dist| * (if s_min < s_max then 1 else -1)
  let n_major := (⌊|(s_max - s_min) / major|⌋).toNat + 1
  let pm0 : List ℚ := List.replicate n_major 0
  let pn0 : List ℚ := List.replicate ((n_ticks : ℤ) - (n_major : ℤ) + 1).toNat 0
  let r := (List.range n_ticks).foldl (tickStep minor tick_dist2 s_min) (pm0, 0, pn0, 0)
  (r.1.take r.2.1, r.2.2.1.take r.2.2.2)

/-- The `while True` loop of lines 460-484, with explicit fuel standing in
for the unbounded iteration (the source relies on `log10` growth for
termination; when the fuel runs out we return the state reached, and every
theorem quantifies over sufficient fuel).  State is
`(points_major, k, points_minor, k2)` plus the counters `count` and
`count_min`. -/
def logLoop (O : Oracles) (s_max decade_dist min_pos start_dec minor : ℚ) :
    ℕ → List ℚ × ℕ × List ℚ × ℕ → ℕ → ℚ → List ℚ × ℕ × List ℚ × ℕ
  | 0, st, _, _ => st
  | fuel + 1, st, count, count_min =>
    let (pm, k, pn, k2) := st
    let pos_dec := start_dec + decade_dist * (count : ℚ)
    let pos_dec_low : ℤ := ⌊pos_dec⌋
    let diff := pos_dec - (pos_dec_low : ℚ)
    let zero : Bool := |diff| < 0.001 * decade_dist
    let pos_log := if zero then (pos_dec_low : ℚ)
      else O.lg ((pos_dec - (pos_dec_low : ℚ)) * 10 ^ ⌈pos_dec⌉)
    if s_max < pos_log then (pm, k, pn, k2)
    else
      if zero ∨ min_pos ≤ diff then
        if minor ≠ 0 ∧ pymod count_min minor = 0 then
          logLoop O s_max decade_dist min_pos start_dec minor fuel
            (pm.set k pos_log, k + 1, pn, k2) (count + 1) (count_min + 1)
        else
          logLoop O s_max decade_dist min_pos start_dec minor fuel
            (pm, k, pn.set k2 pos_log, k2 + 1) (count + 1) (count_min + 1)
      else
        logLoop O s_max decade_dist min_pos start_dec minor fuel
          (pm, k, pn, k2) (count + 1) (count_min + 1)

/-- Lines 418-484 (numeric log branch of `_get_ticks`) followed by the
truncation of lines 504-505.  `s_min`/`s_max` here are the original data
bounds; the branch first replaces them by their `log10` (lines 419-420).
`10 ** n` with the integer `n = floor(s_max + 1)` (resp. `ceil(pos_dec)`)
is exact integer exponentiation and is modelled by rational `zpow`; the
float-exponent powers go through the `p10` oracle and the
`Decimal`-exponent power of line 454 through `p10d`. -/
def logTicks (O : Oracles) (fuel : ℕ) (major minor s_min0 s_max0 : ℚ) :
    List ℚ × List ℚ :=
  let s_min := O.lg s_min0
  let s_max := O.lg s_max0
  let n_decades0 : ℚ := (⌊s_max - s_min⌋ : ℚ)
  let n_decades : ℚ :=
    if ⌊s_min + n_decades0⌋ ≠ ⌊s_max⌋ then
      n_decades0 + 1 - (O.p10 (s_min + n_decades0 + 1) - O.p10 s_max) / 10 ^ ⌊s_max + 1⌋
    else
      n_decades0 + (O.p10 s_max - O.p10 (s_min + n_decades0)) / 10 ^ ⌊s_max + 1⌋
  let n_ticks_major := n_decades / major
  let n_ticks : ℤ := ⌊n_ticks_major * (if 1 ≤ minor then minor else 1)⌋ + 2
  let decade_dist := major / (if minor ≠ 0 then minor else 1)
  let min_pos : ℚ := 0.1 - 0.00001 * decade_dist
  let s_min_low : ℤ := ⌊s_min⌋
  let start_dec0 : ℚ :=
    (⌈O.p10d (s_min - (s_min_low : ℚ) - 1) / decade_dist⌉ : ℚ) * decade_dist
  let count_min : ℚ :=
    if minor = 0 then 0 else pymod (⌊start_dec0 / decade_dist⌋ : ℚ) minor
  let start_dec := start_dec0 + (s_min_low : ℚ)
  let pm0 : List ℚ := List.replicate n_ticks.toNat 0
  let pn0 : List ℚ := List.replicate n_ticks.toNat 0
  let r := logLoop O s_max decade_dist min_pos start_dec minor fuel
    (pm0, 0, pn0, 0) 0 count_min
  (r.1.take r.2.1, r.2.2.1.take r.2.2.2)

/-- Lines 405-505 of `Graph._get_ticks`: the two tick lists as built,
before the final `sorted(...)` of lines 506-507. -/
def rawTicks (O : Oracles) (fuel : ℕ) (major minor : TickSpec) (log : Bool)
    (s_min s_max : ℚ) : List ℚ × List ℚ :=
  let minor := fixMinor major minor
  match major, minor with
  | .lst ml, mn =>
    let pm := ml.filter (inRange s_min s_max)
    let mnl := match mn with | .lst l => l | .num _ => []
    let pn := mnl.filter (fun p => inRange s_min s_max p ∧ p ∉ pm)
    if log then (pm.map O.lg, pn.map O.lg) else (pm, pn)
  | .num mj, mn =>
    let mnq := match mn with | .num q => q | .lst _ => 0
    if 0 < mj then
      let mq := max mnq 0
      if log = true ∧ s_min < s_max then logTicks O fuel mj mq s_min s_max
      else if log = false ∧ s_max ≠ s_min then linearTicks mj mq s_min s_max
      else ([], [])
    else ([], [])

/-- Model of `Graph._get_ticks(major, minor, log, s_min, s_max)`, lines 405-507.
Returns `(points_major, points_minor)`, each finally passed through
`sorted(..., reverse=s_min > s_max)` (lines 506-507). -/
def get_ticks (O : Oracles) (fuel : ℕ) (major minor : TickSpec) (log : Bool)
    (s_min s_max : ℚ) : List ℚ × List ℚ :=
  (pysorted (decide (s_max < s_min)) (rawTicks O fuel major minor log s_min s_max).1,
   pysorted (decide (s_max < s_min)) (rawTicks O fuel major minor log s_min s_max).2)

/-- Model of `Plot.funcx` (lines 1286-1289): `log10` when the axis is logarithmic,
identity otherwise (`Plot.funcy` is identical in shape). -/
def funcx (O : Oracles) (xlog : Bool) : ℚ → ℚ := if xlog then O.lg else fun x => x

/-- Model of `Plot.x_px` (lines 1296-1311): data value to pixel coordinate.
`ratiox` is initialised to `0` and only replaced when the transformed
range is nonzero, so a degenerate range maps every value to `size[0]`.
`s0`, `s2` are `params["size"][0]` and `params["size"][2]`. -/
def x_px (O : Oracles) (xlog : Bool) (xmin xmax s0 s2 x : ℚ) : ℚ :=
  let f := funcx O xlog
  let fmin := f xmin
  let fmax := f xmax
  let xrange := fmax - fmin
  let ratiox := if xrange ≠ 0 then (s2 - s0) / xrange else 0
  (f x - fmin) * ratiox + s0

/-- The x half of `Graph.to_data` (lines 969-995): pixel (relative to the
plot area at `posx` with width `sizex`) back to a data value.  The float
power `10. ** e` of line 987 goes through the `p10` oracle. -/
def to_data_x (O : Oracles) (xlog : Bool) (xmin xmax posx sizex px : ℚ) : ℚ :=
  let adj_x := px - posx
  let norm_x := adj_x / sizex
  if xlog then O.p10 (norm_x * (O.lg xmax - O.lg xmin) + O.lg xmin)
  else norm_x * (xmax - xmin) + xmin

/-- Model of `Plot.unproject` (lines 1330-1355).  The source computes
`(x - size[0]) / ratiox + xmin` with `ratiox = 0` whenever the data range
(or the pixel span) is degenerate; dividing a float by `0.0` raises
`ZeroDivisionError` in Python, which we model by returning `none`. -/
def unproject (xmin xmax ymin ymax s0 s1 s2 s3 x y : ℚ) : Option (ℚ × ℚ) :=
  let xrange := xmax - xmin
  let ratiox := if xrange ≠ 0 then (s2 - s0) / xrange else 0
  let yrange := ymax - ymin
  let ratioy := if yrange ≠ 0 then (s3 - s1) / yrange else 0
  if ratiox = 0 ∨ ratioy = 0 then none
  else some ((x - s0) / ratiox + xmin, (y - s1) / ratioy + ymin)

/-- Inputs of the y-tick-label part of `Graph._update_labels` (lines
509-583).  `measure` is the text-measurement collaborator
(`texture_update`/`texture_size`); `texts` abstracts the `get_text`
closure of lines 552-555 (it is total: the `IndexError` branch of line
571 is dead because `_redraw_y` caps the label count by the length of an
explicit `y_grid_label` sequence, lines 846-851); `xlabelH`/`ylabelH` are
the measured heights of the axis-title labels when present (lines
528-540); `hasXGrid` is `len(xlabels) and xlabel_grid`; `n` is
`len(ylabels)`, which `_redraw_y` keeps at most `len(ypoints)`. -/
structure YLabelIn where
  x : ℚ
  y : ℚ
  width : ℚ
  height : ℚ
  padding : ℚ
  xlabelH : Option ℚ
  ylabelH : Option ℚ
  hasXGrid : Bool
  yGridOn : Bool
  measure : String → ℚ × ℚ
  texts : ℕ → String
  n : ℕ
  ypoints : List ℚ
  ymin : ℚ
  ymax : ℚ
  ylog : Bool
  lg : ℚ → ℚ

/-- Result of the y-tick-label pass: the labels' final texts (after the
overlap blanking of lines 632-634), their positions and measured sizes,
the overlap flag, and the running layout insets. -/
structure YLabelOut where
  texts : List String
  pos : List (ℚ × ℚ)
  sizes : List (ℚ × ℚ)
  y_overlap : Bool
  x_next : ℚ
  y_next : ℚ
  yextent : ℚ

/-- Lines 509-583 and 632-634 of `Graph._update_labels`, restricted to the
y tick labels.  A label's `top` is `pos.2 + size.2`; the overlap test of
line 580 compares only `ylabels[0].top` with `ylabels[1].y`. -/
def updateLabelsY (e : YLabelIn) : YLabelOut :=
  let y_next := e.padding + e.y + (match e.xlabelH with | some h => e.padding + h | none => 0)
  let x_next := e.padding + e.x + (match e.ylabelH with | some h => e.padding + h | none => 0)
  if e.n ≠ 0 ∧ e.yGridOn then
    let sz0 := e.measure (e.texts 0)
    let y_start0 := y_next + (if e.hasXGrid then e.padding + sz0.2 else 0)
      + (if y_next = 0 then e.padding + sz0.2 else 0)
    let yextent := e.y + e.height - e.padding - sz0.2 / 2
    let ymin2 := if e.ylog then e.lg e.ymin else e.ymin
    let ymax2 := if e.ylog then e.lg e.ymax else e.ymax
    let ratio := (yextent - y_start0) / (ymax2 - ymin2)
    let y_start := y_start0 - sz0.2 / 2
    let sizes := (List.range e.n).map (fun k => e.measure (e.texts k))
    let y1 := sizes.foldl (fun acc s => max acc s.1) sz0.1
    let pos := (List.range e.n).map (fun k =>
      ((pyint x_next : ℚ) - (sizes.getD k (0, 0)).1 + y1,
       (pyint (y_start + (e.ypoints.getD k 0 - ymin2) * ratio) : ℚ)))
    let y_overlap : Bool := 1 < e.n ∧
      (pos.getD 1 (0, 0)).2 < (pos.getD 0 (0, 0)).2 + (sizes.getD 0 (0, 0)).2
    { texts := if y_overlap then List.replicate e.n ""
               else (List.range e.n).map e.texts
      pos := pos
      sizes := sizes
      y_overlap := y_overlap
      x_next := if y_overlap then x_next else x_next + y1 + e.padding
      y_next := y_next
      yextent := yextent }
  else
    { texts := [], pos := [], sizes := [], y_overlap := false,
      x_next := x_next, y_next := y_next, yextent := e.height + e.y }

/-- Inputs of the x-tick-label part of `_update_labels` (lines 584-620).
`x_next`/`y_next` are the running insets after the y-label pass,
`textLast` is `get_text(-1)` (the text of the last label, measured first
to size the right margin, lines 592-594). -/
structure XLabelIn where
  x : ℚ
  width : ℚ
  padding : ℚ
  x_next : ℚ
  y_next : ℚ
  xGridOn : Bool
  measure : String → ℚ × ℚ
  texts : ℕ → String
  textLast : String
  n : ℕ
  xpoints : List ℚ
  xmin : ℚ
  xmax : ℚ
  xlog : Bool
  lg : ℚ → ℚ

/-- Result of the x-tick-label pass: final texts (after the blanking of
lines 629-631), the x positions of the labels the loop actually placed
before breaking, the overlap flag and the updated insets. -/
structure XLabelOut where
  texts : List String
  posx : List ℚ
  x_overlap : Bool
  x_next : ℚ
  y_next : ℚ
  xextent : ℚ

/-- One step of the left-to-right overlap scan of lines 602-618: `st` is
`(right, x_overlap, placed)`; a label is placed, then flagged as
overlapping if its left edge is below the previous label's right edge
(the scan stops updating state after the `break`). -/
def xScanStep (st : ℚ × Bool × List ℚ) (xw : ℚ × ℚ) : ℚ × Bool × List ℚ :=
  if st.2.1 then st
  else if xw.1 < st.1 then (st.1, true, st.2.2 ++ [xw.1])
  else (xw.1 + xw.2, false, st.2.2 ++ [xw.1])

/-- Lines 584-620 and 629-631 of `Graph._update_labels`, restricted to the
x tick labels.  As with `updateLabelsY`, `texts` is total because the
`except IndexError: pass` of line 607 is unreachable given `_redraw_x`'s
label-count cap (lines 801-806). -/
def updateLabelsX (e : XLabelIn) : XLabelOut :=
  if e.n ≠ 0 ∧ e.xGridOn then
    let xextent := e.x + e.width - (e.measure e.textLast).1 / 2 - e.padding
    let x_next := if e.x_next = 0 then e.padding + (e.measure (e.texts 0)).1 / 2
                  else e.x_next
    let xmin2 := if e.xlog then e.lg e.xmin else e.xmin
    let xmax2 := if e.xlog then e.lg e.xmax else e.xmax
    let ratio := (xextent - x_next) / (xmax2 - xmin2)
    let sizes := (List.range e.n).map (fun k => e.measure (e.texts k))
    let xs := (List.range e.n).map (fun k =>
      ((pyint (x_next + (e.xpoints.getD k 0 - xmin2) * ratio
        - (sizes.getD k (0, 0)).1 / 2) : ℚ)))
    let scan := (xs.zip (sizes.map Prod.fst)).foldl xScanStep (-1, false, [])
    let x_overlap := scan.2.1
    { texts := if x_overlap then List.replicate e.n ""
               else (List.range e.n).map e.texts
      posx := scan.2.2
      x_overlap := x_overlap
      x_next := x_next
      y_next := if x_overlap then e.y_next
                else e.y_next + e.padding + (sizes.getD 0 (0, 0)).2
      xextent := xextent }
  else
    { texts := [], posx := [], x_overlap := false, x_next := e.x_next,
      y_next := e.y_next, xextent := e.x + e.width }

/-- Major-tick test of the linear loop (line 496, negated: tick `m` is
major when `minor and m % minor` is falsy). -/
def majorAt (minor : ℚ) (m : ℕ) : Bool :=
  !(decide (minor ≠ 0 ∧ pymod (m : ℚ) minor ≠ 0))

/-- Data position of tick `m` in the linear loop (lines 497/500). -/
def tickPos (td smin : ℚ) (m : ℕ) : ℚ := (m : ℚ) * td + smin

theorem tickStep_major {minor td smin : ℚ} (st : List ℚ × ℕ × List ℚ × ℕ)
    {m : ℕ} (h : majorAt minor m = true) :
    tickStep minor td smin st m
      = (st.1.set st.2.1 (tickPos td smin m), st.2.1 + 1, st.2.2.1, st.2.2.2) := by
  obtain ⟨pm, k, pn, k2⟩ := st
  simp only [majorAt, Bool.not_eq_true', decide_eq_false_iff_not] at h
  simp [tickStep, tickPos, h]

theorem tickStep_minor {minor td smin : ℚ} (st : List ℚ × ℕ × List ℚ × ℕ)
    {m : ℕ} (h : majorAt minor m = false) :
    tickStep minor td smin st m
      = (st.1, st.2.1, st.2.2.1.set st.2.2.2 (tickPos td smin m), st.2.2.2 + 1) := by
  obtain ⟨pm, k, pn, k2⟩ := st
  have h2 : minor ≠ 0 ∧ pymod (m : ℚ) minor ≠ 0 := by
    simpa [majorAt] using h
  simp [tickStep, tickPos, h2]

theorem set_fill {l : List ℚ} {A k : ℕ} {v : ℚ} (hk : l.length = k)
    (h : k + 1 ≤ A) :
    (l ++ List.replicate (A - k) (0:ℚ)).set k v
      = (l ++ [v]) ++ List.replicate (A - (k + 1)) 0 := by
  subst hk
  rw [List.set_append_right _ _ (le_refl _), Nat.sub_self]
  have h2 : A - l.length = (A - (l.length + 1)) + 1 := by omega
  rw [h2, List.replicate_succ, List.set_cons_zero, List.append_cons]

/-- The write-pointer loop of lines 495-501 fills the two preallocated
buffers with the major/minor tick positions in index order, provided the
buffers are large enough. -/
theorem tickLoop_eval (minor td smin : ℚ) (N A B : ℕ)
    (hA : ((List.range N).filter (majorAt minor)).length ≤ A)
    (hB : ((List.range N).filter (fun m => !majorAt minor m)).length ≤ B) :
    (List.range N).foldl (tickStep minor td smin)
        (List.replicate A 0, 0, List.replicate B 0, 0)
      = (((List.range N).filter (majorAt minor)).map (tickPos td smin)
           ++ List.replicate (A - ((List.range N).filter (majorAt minor)).length) 0,
         ((List.range N).filter (majorAt minor)).length,
         ((List.range N).filter (fun m => !majorAt minor m)).map (tickPos td smin)
           ++ List.replicate
                (B - ((List.range N).filter (fun m => !majorAt minor m)).length) 0,
         ((List.range N).filter (fun m => !majorAt minor m)).length) := by
  induction N with
  | zero => simp
  | succ n ih =>
    have hsub : ∀ (p : ℕ → Bool),
        ((List.range n).filter p).length ≤ ((List.range (n+1)).filter p).length := by
      intro p
      rw [List.range_succ, List.filter_append]
      simp only [List.length_append]
      omega
    have hA' := le_trans (hsub _) hA
    have hB' := le_trans (hsub _) hB
    rw [List.range_succ, List.foldl_append, ih hA' hB']
    simp only [List.foldl_cons, List.foldl_nil, List.filter_append]
    cases hm : majorAt minor n with
    | true =>
      have hcount : ((List.range (n+1)).filter (majorAt minor)).length
          = ((List.range n).filter (majorAt minor)).length + 1 := by
        rw [List.range_succ, List.filter_append]
        simp [hm]
      have hlen : ((List.range n).filter (majorAt minor)).length + 1 ≤ A := by
        rw [← hcount]; exact hA
      rw [tickStep_major _ hm]
      simp only [List.filter_cons, List.filter_nil, hm, Bool.not_true, cond_true,
        cond_false, List.append_nil, List.map_append, List.map_cons, List.map_nil,
        List.length_append, List.length_cons, List.length_nil]
      rw [set_fill (by simp) hlen]
      simp
    | false =>
      have hcount : ((List.range (n+1)).filter (fun m => !majorAt minor m)).length
          = ((List.range n).filter (fun m => !majorAt minor m)).length + 1 := by
        rw [List.range_succ, List.filter_append]
        simp [hm]
      have hlen : ((List.range n).filter (fun m => !majorAt minor m)).length + 1 ≤ B := by
        rw [← hcount]; exact hB
      rw [tickStep_minor _ hm]
      simp only [List.filter_cons, List.filter_nil, hm, Bool.not_false, cond_true,
        cond_false, List.append_nil, List.map_append, List.map_cons, List.map_nil,
        List.length_append, List.length_cons, List.length_nil]
      rw [set_fill (by simp) hlen]
      simp

theorem pymod_nat (m c : ℕ) (hc : c ≠ 0) :
    pymod (m : ℚ) (c : ℚ) = ((m % c : ℕ) : ℚ) := by
  unfold pymod
  have h1 : (⌊((m : ℚ) / (c : ℚ))⌋ : ℤ) = ((m / c : ℕ) : ℤ) := by
    rw [show ((m : ℚ)) = (((m : ℤ) : ℚ)) by push_cast; ring,
        Rat.floor_intCast_div_natCast]
    exact (Int.ofNat_div m c).symm
  rw [h1, Int.cast_natCast]
  have h2 : ((m % c : ℕ) : ℚ) + ((m / c : ℕ) : ℚ) * (c : ℚ) = (m : ℚ) := by
    exact_mod_cast congrArg (Nat.cast (R := ℚ)) (Nat.mod_add_div' m c)
  linarith

theorem majorAt_nat (c m : ℕ) :
    majorAt (c : ℚ) m = (decide (c = 0) || decide (m % c = 0)) := by
  by_cases hc : c = 0
  · subst hc
    simp [majorAt]
  · have hcq : ((c : ℚ)) ≠ 0 := Nat.cast_ne_zero.mpr hc
    by_cases hm : m % c = 0
    · simp [majorAt, pymod_nat m c hc, hm, hc, hcq]
    · have hmc : ((m % c : ℕ) : ℚ) ≠ 0 := Nat.cast_ne_zero.mpr hm
      simp [majorAt, pymod_nat m c hc, hm, hc, hcq, hmc]

theorem filter_modeq_range (c : ℕ) (hc : c ≠ 0) (N : ℕ) :
    (List.range N).filter (fun m => decide (m % c = 0))
      = (List.range ((N + c - 1) / c)).map (· * c) := by
  induction N with
  | zero =>
    have h0 : (0 + c - 1) / c = 0 := Nat.div_eq_of_lt (by omega)
    rw [h0]
    simp
  | succ n ih =>
    rw [List.range_succ, List.filter_append, ih]
    by_cases h : n % c = 0
    · obtain ⟨t, rfl⟩ : ∃ t, n = c * t :=
        ⟨n / c, (Nat.mul_div_cancel' (Nat.dvd_of_mod_eq_zero h) ).symm⟩
      have key1 : (c * t + c - 1) / c = t := by
        rw [show c * t + c - 1 = c * t + (c - 1) from by omega,
            Nat.mul_add_div (by omega)]
        simp [Nat.div_eq_of_lt (show c - 1 < c from by omega)]
      have key2 : (c * t + 1 + c - 1) / c = t + 1 := by
        rw [show c * t + 1 + c - 1 = c * t + c from by omega,
            Nat.mul_add_div (by omega), Nat.div_self (by omega)]
      rw [key1, key2, List.range_succ, List.map_append]
      simp [h, Nat.mul_comm]
    · have key3 : (n + 1 + c - 1) / c = (n + c - 1) / c := by
        have hr : n % c ≠ 0 := h
        obtain ⟨t, r, hrlt, rfl⟩ : ∃ t r, r < c ∧ n = c * t + r :=
          ⟨n / c, n % c, Nat.mod_lt _ (by omega), (Nat.div_add_mod n c).symm⟩
        have hr1 : 1 ≤ r := by
          rcases Nat.eq_zero_or_pos r with h0 | h1
          · exfalso; apply hr; simp [h0, Nat.mul_add_mod]
          · exact h1
        have e1 : c * t + r + 1 + c - 1 = c * t + (r + c) := by omega
        have e2 : c * t + r + c - 1 = c * t + (r - 1 + c) := by omega
        rw [e1, e2, Nat.mul_add_div (by omega), Nat.mul_add_div (by omega),
            Nat.add_div_right _ (by omega), Nat.add_div_right _ (by omega),
            Nat.div_eq_of_lt hrlt, Nat.div_eq_of_lt (show r - 1 < c from by omega)]
      rw [key3]
      simp [h]

/-- The effective tick distance `major / (minor if minor else 1)` of line
487, for a natural-number minor. -/
def tdist (mq : ℚ) (c : ℕ) : ℚ := mq / ((max c 1 : ℕ) : ℚ)

/-- Axis direction `1 if s_min < s_max else -1` of line 489. -/
def sgn (mn mx : ℚ) : ℚ := if mn < mx then 1 else -1

/-- `n_ticks` of line 488. -/
def nTicks (mq : ℚ) (c : ℕ) (mn mx : ℚ) : ℕ :=
  (⌊|mx - mn| / tdist mq c⌋).toNat + 1

theorem count_majorAt (c N : ℕ) :
    ((List.range N).filter (majorAt (c : ℚ))).length
      = if c ≤ 1 then N else (N + c - 1) / c := by
  by_cases hc : c ≤ 1
  · rw [if_pos hc]
    have hall : ∀ m ∈ List.range N, majorAt (c : ℚ) m = true := by
      intro m _
      rw [majorAt_nat]
      interval_cases c <;> simp [Nat.mod_one]
    rw [List.filter_eq_self.mpr hall, List.length_range]
  · rw [if_neg hc]
    have hc0 : c ≠ 0 := by omega
    have heq : (List.range N).filter (majorAt (c : ℚ))
        = (List.range N).filter (fun m => decide (m % c = 0)) := by
      apply List.filter_congr
      intro m _
      rw [majorAt_nat]
      simp [hc0]
    rw [heq, filter_modeq_range c hc0, List.length_map, List.length_range]

theorem tdist_pos {mq : ℚ} (c : ℕ) (hmq : 0 < mq) : 0 < tdist mq c := by
  apply div_pos hmq
  have : 1 ≤ max c 1 := le_max_right c 1
  exact_mod_cast lt_of_lt_of_le zero_lt_one (by exact_mod_cast this)

theorem nTicks_le_one (mq : ℚ) (c : ℕ) (mn mx : ℚ) (hc : c ≤ 1) :
    nTicks mq c mn mx = (⌊|mx - mn| / mq⌋).toNat + 1 := by
  unfold nTicks tdist
  have : max c 1 = 1 := by omega
  rw [this]
  norm_num

theorem key_div (mq : ℚ) (c : ℕ) (mn mx : ℚ) (hmq : 0 < mq) (hc : 2 ≤ c) :
    (nTicks mq c mn mx + c - 1) / c = (⌊|mx - mn| / mq⌋).toNat + 1 := by
  have hc0 : (0:ℕ) < c := by omega
  have hmax : max c 1 = c := by omega
  have hx : (0:ℚ) ≤ |mx - mn| / mq := div_nonneg (abs_nonneg _) (le_of_lt hmq)
  have hfl : (⌊|mx - mn| / tdist mq c⌋).toNat = ⌊(|mx - mn| / mq) * (c:ℚ)⌋₊ := by
    rw [Int.floor_toNat]
    congr 1
    unfold tdist
    rw [hmax, div_div_eq_mul_div, mul_comm, mul_div_assoc, mul_comm]
  have hfl2 : (⌊|mx - mn| / mq⌋).toNat = ⌊|mx - mn| / mq⌋₊ := Int.floor_toNat _
  unfold nTicks
  rw [hfl, hfl2]
  have e1 : ⌊(|mx - mn| / mq) * (c:ℚ)⌋₊ + 1 + c - 1 = ⌊(|mx - mn| / mq) * (c:ℚ)⌋₊ + c := by
    omega
  rw [e1, Nat.add_div_right _ hc0]
  congr 1
  have hcq : ((c : ℚ)) ≠ 0 := Nat.cast_ne_zero.mpr (by omega)
  have hdiv := Nat.floor_div_nat ((|mx - mn| / mq) * (c:ℚ)) c
  rw [mul_div_cancel_right₀ _ hcq] at hdiv
  exact hdiv.symm

theorem linearTicks_eval (mq : ℚ) (c : ℕ) (mn mx : ℚ) (hmq : 0 < mq) :
    linearTicks mq (c : ℚ) mn mx
      = (((List.range (nTicks mq c mn mx)).filter (majorAt (c : ℚ))).map
           (tickPos (tdist mq c * sgn mn mx) mn),
         ((List.range (nTicks mq c mn mx)).filter (fun m => !majorAt (c : ℚ) m)).map
           (tickPos (tdist mq c * sgn mn mx) mn)) := by
  have htd : 0 < tdist mq c := tdist_pos c hmq
  have h1 : mq / (if (c : ℚ) ≠ 0 then (c : ℚ) else 1) = tdist mq c := by
    unfold tdist
    by_cases hc : c = 0
    · subst hc; norm_num
    · have hmax : max c 1 = c := by omega
      rw [hmax]
      simp [Nat.cast_ne_zero.mpr hc]
  have habs : |(mx - mn) / tdist mq c| = |mx - mn| / tdist mq c := by
    rw [abs_div, abs_of_pos htd]
  have habs2 : |(mx - mn) / mq| = |mx - mn| / mq := by
    rw [abs_div, abs_of_pos hmq]
  have h3 : |tdist mq c| * (if mn < mx then (1:ℚ) else -1) = tdist mq c * sgn mn mx := by
    rw [abs_of_pos htd]; rfl
  have hcount : ((List.range (nTicks mq c mn mx)).filter (majorAt (c : ℚ))).length
      = (⌊|mx - mn| / mq⌋).toNat + 1 := by
    rw [count_majorAt]
    by_cases hc : c ≤ 1
    · rw [if_pos hc, nTicks_le_one mq c mn mx hc]
    · rw [if_neg hc]
      exact key_div mq c mn mx hmq (by omega)
  have hpart : ((List.range (nTicks mq c mn mx)).filter (majorAt (c : ℚ))).length
      + ((List.range (nTicks mq c mn mx)).filter (fun m => !majorAt (c : ℚ) m)).length
      = nTicks mq c mn mx := by
    have hperm := List.filter_append_perm (majorAt (c : ℚ)) (List.range (nTicks mq c mn mx))
    have := hperm.length_eq
    simpa using this
  have hA : ((List.range (nTicks mq c mn mx)).filter (majorAt (c : ℚ))).length
      ≤ (⌊|mx - mn| / mq⌋).toNat + 1 := le_of_eq hcount
  have hB : ((List.range (nTicks mq c mn mx)).filter (fun m => !majorAt (c : ℚ) m)).length
      ≤ ((nTicks mq c mn mx : ℤ) - ((⌊|mx - mn| / mq⌋).toNat + 1 : ℕ) + 1).toNat := by
    omega
  simp only [linearTicks]
  rw [h1, habs]
  rw [show (⌊|mx - mn| / tdist mq c⌋).toNat + 1 = nTicks mq c mn mx from rfl]
  rw [h3, habs2]
  rw [tickLoop_eval (c : ℚ) (tdist mq c * sgn mn mx) mn (nTicks mq c mn mx) _ _ hA hB]
  refine Prod.ext ?_ ?_ <;>
    · simp only []
      apply List.take_left'
      simp

theorem rawTicks_num_linear (O : Oracles) (fuel : ℕ) (mq mnq mn mx : ℚ)
    (hmq : 0 < mq) (hne : mx ≠ mn) :
    rawTicks O fuel (.num mq) (.num mnq) false mn mx
      = linearTicks mq (max mnq 0) mn mx := by
  simp [rawTicks, fixMinor, hmq, hne]

theorem get_ticks_num_linear (O : Oracles) (fuel : ℕ) (mq : ℚ) (c : ℕ)
    (mn mx : ℚ) (hmq : 0 < mq) (hne : mx ≠ mn) :
    get_ticks O fuel (.num mq) (.num (c : ℚ)) false mn mx
      = (pysorted (decide (mx < mn))
           (((List.range (nTicks mq c mn mx)).filter (majorAt (c : ℚ))).map
             (tickPos (tdist mq c * sgn mn mx) mn)),
         pysorted (decide (mx < mn))
           (((List.range (nTicks mq c mn mx)).filter (fun m => !majorAt (c : ℚ) m)).map
             (tickPos (tdist mq c * sgn mn mx) mn))) := by
  unfold get_ticks
  rw [rawTicks_num_linear O fuel mq (c : ℚ) mn mx hmq hne,
      max_eq_left (Nat.cast_nonneg c), linearTicks_eval mq c mn mx hmq]

theorem majors_closed (mq : ℚ) (c : ℕ) (mn mx : ℚ) (hmq : 0 < mq) :
    ((List.range (nTicks mq c mn mx)).filter (majorAt (c : ℚ))).map
        (tickPos (tdist mq c * sgn mn mx) mn)
      = (List.range ((⌊|mx - mn| / mq⌋).toNat + 1)).map
          (fun j : ℕ => (j : ℚ) * (mq * sgn mn mx) + mn) := by
  by_cases hc : c ≤ 1
  · have hfil : (List.range (nTicks mq c mn mx)).filter (majorAt (c : ℚ))
        = List.range (nTicks mq c mn mx) := by
      apply List.filter_eq_self.mpr
      intro m _
      rw [majorAt_nat]
      interval_cases c <;> simp [Nat.mod_one]
    rw [hfil, nTicks_le_one mq c mn mx hc]
    apply List.map_congr_left
    intro j hj
    unfold tickPos tdist
    have h1 : max c 1 = 1 := by omega
    rw [h1]
    push_cast
    ring
  · have hc0 : c ≠ 0 := by omega
    have heq : (List.range (nTicks mq c mn mx)).filter (majorAt (c : ℚ))
        = (List.range (nTicks mq c mn mx)).filter (fun m => decide (m % c = 0)) := by
      apply List.filter_congr
      intro m _
      rw [majorAt_nat]
      simp [hc0]
    rw [heq, filter_modeq_range c hc0, key_div mq c mn mx hmq (by omega),
        List.map_map]
    apply List.map_congr_left
    intro j hj
    simp only [Function.comp]
    unfold tickPos tdist
    have hmax : max c 1 = c := by omega
    have hcq : ((c : ℚ)) ≠ 0 := Nat.cast_ne_zero.mpr hc0
    rw [hmax]
    push_cast
    field_simp
    ring

theorem pysorted_ap (mq mn mx : ℚ) (hmq : 0 < mq) (hne : mn ≠ mx) (A : ℕ) :
    pysorted (decide (mx < mn))
        ((List.range A).map (fun j : ℕ => (j : ℚ) * (mq * sgn mn mx) + mn))
      = (List.range A).map (fun j : ℕ => (j : ℚ) * (mq * sgn mn mx) + mn) := by
  rcases lt_or_gt_of_ne hne with h | h
  · have hflag : decide (mx < mn) = false := decide_eq_false (not_lt.mpr h.le)
    have hsgn : sgn mn mx = 1 := if_pos h
    rw [hflag]
    show pysorted false _ = _
    unfold pysorted
    simp only [Bool.false_eq_true, if_false]
    apply List.Sorted.insertionSort_eq
    refine (List.pairwise_lt_range A).map _ ?_
    intro a b hab
    rw [hsgn]
    have hab2 : (a : ℚ) < (b : ℚ) := by exact_mod_cast hab
    nlinarith
  · have hflag : decide (mx < mn) = true := decide_eq_true h
    have hsgn : sgn mn mx = -1 := if_neg (not_lt.mpr h.le)
    rw [hflag]
    show pysorted true _ = _
    unfold pysorted
    simp only [if_true]
    apply List.Sorted.insertionSort_eq
    refine (List.pairwise_lt_range A).map _ ?_
    intro a b hab
    rw [hsgn]
    have hab2 : (a : ℚ) < (b : ℚ) := by exact_mod_cast hab
    nlinarith

instance : IsTotal ℚ (fun a b : ℚ => b ≤ a) := ⟨fun a b => le_total b a⟩
instance : IsTrans ℚ (fun a b : ℚ => b ≤ a) := ⟨fun _ _ _ h1 h2 => le_trans h2 h1⟩
instance : IsAntisymm ℚ (fun a b : ℚ => b ≤ a) := ⟨fun _ _ h1 h2 => le_antisymm h2 h1⟩

theorem pysorted_perm (b : Bool) (l : List ℚ) : List.Perm (pysorted b l) l := by
  cases b <;> simp [pysorted, List.perm_insertionSort]

theorem mem_pysorted {q : ℚ} {b : Bool} {l : List ℚ} : q ∈ pysorted b l ↔ q ∈ l :=
  (pysorted_perm b l).mem_iff

theorem pysorted_false_sorted (l : List ℚ) : (pysorted false l).Sorted (· ≤ ·) := by
  simpa [pysorted] using List.sorted_insertionSort (fun a b : ℚ => a ≤ b) l

theorem pysorted_true_sorted (l : List ℚ) :
    (pysorted true l).Sorted (fun a b => b ≤ a) := by
  simpa [pysorted] using List.sorted_insertionSort (fun a b : ℚ => b ≤ a) l

theorem pysorted_true_eq_reverse (l : List ℚ) :
    pysorted true l = (pysorted false l).reverse := by
  refine List.eq_of_perm_of_sorted (r := fun a b : ℚ => b ≤ a) ?_
    (pysorted_true_sorted l) ?_
  · exact (pysorted_perm true l).trans
      ((pysorted_perm false l).symm.trans (List.reverse_perm _).symm)
  · exact List.pairwise_reverse.mpr (pysorted_false_sorted l)

theorem reverse_eq_self_of_const {c : ℚ} {l : List ℚ} (h : ∀ q ∈ l, q = c) :
    l.reverse = l := by
  rw [List.eq_replicate_of_mem h, List.reverse_replicate]

/-- C1 (amended to integer minor): for a linear range with `min != max`,
numeric `major > 0` and a natural-number minor, `_get_ticks` returns
exactly `floor(|max-min|/major) + 1` major tick positions, and consecutive
major ticks differ by exactly `major` signed by the axis direction. -/
theorem C1_linear_major_count_spacing (O : Oracles) (fuel : ℕ) (mq mn mx : ℚ) (c : ℕ)
    (hmq : 0 < mq) (hne : mn ≠ mx) :
    (get_ticks O fuel (.num mq) (.num (c : ℚ)) false mn mx).1.length
        = (⌊|mx - mn| / mq⌋).toNat + 1 ∧
    ∀ i : ℕ, i + 1 < (get_ticks O fuel (.num mq) (.num (c : ℚ)) false mn mx).1.length →
      (get_ticks O fuel (.num mq) (.num (c : ℚ)) false mn mx).1.getD (i + 1) 0
        - (get_ticks O fuel (.num mq) (.num (c : ℚ)) false mn mx).1.getD i 0
        = mq * sgn mn mx := by
  have hmaj : (get_ticks O fuel (.num mq) (.num (c : ℚ)) false mn mx).1
      = (List.range ((⌊|mx - mn| / mq⌋).toNat + 1)).map
          (fun j : ℕ => (j : ℚ) * (mq * sgn mn mx) + mn) := by
    rw [get_ticks_num_linear O fuel mq c mn mx hmq (Ne.symm hne)]
    simp only []
    rw [majors_closed mq c mn mx hmq, pysorted_ap mq mn mx hmq hne]
  rw [hmaj]
  constructor
  · simp
  · intro i hi
    simp only [List.length_map, List.length_range] at hi
    have hgd : ∀ k : ℕ, k < (⌊|mx - mn| / mq⌋).toNat + 1 →
        ((List.range ((⌊|mx - mn| / mq⌋).toNat + 1)).map
            (fun j : ℕ => (j : ℚ) * (mq * sgn mn mx) + mn)).getD k 0
          = (k : ℚ) * (mq * sgn mn mx) + mn := by
      intro k hk
      rw [List.getD_eq_getElem?_getD, List.getElem?_map, List.getElem?_range hk]
      simp
    rw [hgd _ hi, hgd _ (by omega)]
    push_cast
    ring

theorem majorAt_iff (c m : ℕ) : majorAt (c : ℚ) m = true ↔ (c ≤ 1 ∨ c ∣ m) := by
  rw [majorAt_nat]
  rcases Nat.lt_or_ge c 2 with h | h
  · interval_cases c <;> simp [Nat.mod_one]
  · have h0 : c ≠ 0 := by omega
    have h1 : ¬ c ≤ 1 := by omega
    simp [h0, h1, Nat.dvd_iff_mod_eq_zero]

/-- C10 (amended to integer minor): in numeric linear mode the majors and
minors are disjoint and their union is exactly the arithmetic progression
`min + m*d*sign` for `m = 0 .. floor(|max-min|/d)` with
`d = major/max(minor,1)`; index `m` is major precisely when `minor <= 1`
or `minor` divides `m`. -/
theorem C10_linear_partition (O : Oracles) (fuel : ℕ) (mq mn mx : ℚ) (c : ℕ)
    (hmq : 0 < mq) (hne : mn ≠ mx) :
    (∀ q : ℚ, q ∈ (get_ticks O fuel (.num mq) (.num (c : ℚ)) false mn mx).1
      ↔ ∃ m : ℕ, m ≤ (⌊|mx - mn| / tdist mq c⌋).toNat ∧ (c ≤ 1 ∨ c ∣ m) ∧
          q = (m : ℚ) * (tdist mq c * sgn mn mx) + mn) ∧
    (∀ q : ℚ, q ∈ (get_ticks O fuel (.num mq) (.num (c : ℚ)) false mn mx).2
      ↔ ∃ m : ℕ, m ≤ (⌊|mx - mn| / tdist mq c⌋).toNat ∧ ¬(c ≤ 1 ∨ c ∣ m) ∧
          q = (m : ℚ) * (tdist mq c * sgn mn mx) + mn) ∧
    (∀ q : ℚ, ¬(q ∈ (get_ticks O fuel (.num mq) (.num (c : ℚ)) false mn mx).1 ∧
               q ∈ (get_ticks O fuel (.num mq) (.num (c : ℚ)) false mn mx).2)) := by
  have hg := get_ticks_num_linear O fuel mq c mn mx hmq (Ne.symm hne)
  have h1 : ∀ q : ℚ, q ∈ (get_ticks O fuel (.num mq) (.num (c : ℚ)) false mn mx).1
      ↔ ∃ m : ℕ, m ≤ (⌊|mx - mn| / tdist mq c⌋).toNat ∧ (c ≤ 1 ∨ c ∣ m) ∧
          q = (m : ℚ) * (tdist mq c * sgn mn mx) + mn := by
    intro q
    rw [hg]
    simp only []
    rw [mem_pysorted, List.mem_map]
    constructor
    · rintro ⟨m, hm, rfl⟩
      rw [List.mem_filter, List.mem_range] at hm
      refine ⟨m, by unfold nTicks at hm; omega, (majorAt_iff c m).mp hm.2, rfl⟩
    · rintro ⟨m, hm1, hm2, rfl⟩
      refine ⟨m, ?_, rfl⟩
      rw [List.mem_filter, List.mem_range]
      exact ⟨by unfold nTicks; omega, (majorAt_iff c m).mpr hm2⟩
  have h2 : ∀ q : ℚ, q ∈ (get_ticks O fuel (.num mq) (.num (c : ℚ)) false mn mx).2
      ↔ ∃ m : ℕ, m ≤ (⌊|mx - mn| / tdist mq c⌋).toNat ∧ ¬(c ≤ 1 ∨ c ∣ m) ∧
          q = (m : ℚ) * (tdist mq c * sgn mn mx) + mn := by
    intro q
    rw [hg]
    simp only []
    rw [mem_pysorted, List.mem_map]
    constructor
    · rintro ⟨m, hm, rfl⟩
      rw [List.mem_filter, List.mem_range] at hm
      have := hm.2
      rw [Bool.not_eq_true'] at this
      refine ⟨m, by unfold nTicks at hm; omega, ?_, rfl⟩
      intro hcon
      rw [← majorAt_iff c m] at hcon
      simp [hcon] at this
    · rintro ⟨m, hm1, hm2, rfl⟩
      refine ⟨m, ?_, rfl⟩
      rw [List.mem_filter, List.mem_range]
      refine ⟨by unfold nTicks; omega, ?_⟩
      rw [Bool.not_eq_true', ← Bool.not_eq_true, majorAt_iff]
      exact hm2
  refine ⟨h1, h2, ?_⟩
  intro q ⟨hq1, hq2⟩
  obtain ⟨m1, _, hmaj, hv1⟩ := (h1 q).mp hq1
  obtain ⟨m2, _, hmin, hv2⟩ := (h2 q).mp hq2
  have hstep : tdist mq c * sgn mn mx ≠ 0 := by
    have htd := tdist_pos c hmq
    unfold sgn
    by_cases h : mn < mx <;> simp [h] <;> exact ne_of_gt htd
  have hm12 : m1 = m2 := by
    have h := hv1.symm.trans hv2
    field_simp at h
    rcases h with h | h
    · exact h
    · exact absurd h hstep
  subst hm12
  exact hmin hmaj

/-- Trivial oracle interpretation used by concrete witnesses. -/
def O0 : Oracles := ⟨fun _ => 0, fun _ => 0, fun _ => 0⟩

theorem raw1 : rawTicks O0 0 (.num 1) (.num (1/2)) false 0 1 = ([0], []) := by
  have h1 : (⌊|(1:ℚ)/2|⌋) = 0 := by
    rw [abs_of_pos (by norm_num)]
    rw [Int.floor_eq_iff] <;> norm_num
  have h2 : List.replicate 2 (0:ℚ) = [0, 0] := rfl
  have h3 : List.range 1 = [0] := rfl
  norm_num [rawTicks, fixMinor, linearTicks, tickStep, pymod, h1, h2, h3]

/-- C1 counterexample: with the fractional minor `1/2` (allowed by the
claim's "minor numeric >= 0"), `_get_ticks(1, 0.5, False, 0, 1)` returns a
single major tick, not `floor(|1-0|/1)+1 = 2` of them, because the code
divides by `minor` itself rather than `max(minor, 1)`. -/
theorem C1_counterexample :
    ¬ ((get_ticks O0 0 (.num 1) (.num (1/2)) false 0 1).1.length
        = (⌊|(1:ℚ) - 0| / 1⌋).toNat + 1) := by
  have hg : get_ticks O0 0 (.num 1) (.num (1/2)) false 0 1 = ([0], []) := by
    unfold get_ticks
    rw [raw1]
    norm_num [pysorted, List.insertionSort, List.orderedInsert]
  rw [hg]
  norm_num

/-- C10 counterexample: with minor `1/2` the effective tick distance is
`major/minor = 2`, not `major/max(minor,1) = 1`, so the claimed union
member `1 = 0 + 1*1*1` is not generated for `(1, 0.5, False, 0, 1)`. -/
theorem C10_counterexample :
    ¬ ((1 : ℚ) ∈ (get_ticks O0 0 (.num 1) (.num (1/2)) false 0 1).1 ∨
       (1 : ℚ) ∈ (get_ticks O0 0 (.num 1) (.num (1/2)) false 0 1).2) := by
  have hg : get_ticks O0 0 (.num 1) (.num (1/2)) false 0 1 = ([0], []) := by
    unfold get_ticks
    rw [raw1]
    norm_num [pysorted, List.insertionSort, List.orderedInsert]
  rw [hg]
  norm_num

/-- C5 counterexample: swapping min and max does not preserve the set of
positions in numeric mode: `_get_ticks(3, 0, False, 0, 10)` produces the
tick 0, but the swapped call `_get_ticks(3, 0, False, 10, 0)` produces
`{10, 7, 4, 1}`, which does not contain 0. -/
theorem C5_counterexample :
    (0 : ℚ) ∈ (get_ticks O0 0 (.num 3) (.num ((0:ℕ) : ℚ)) false 0 10).1 ∧
    (0 : ℚ) ∉ (get_ticks O0 0 (.num 3) (.num ((0:ℕ) : ℚ)) false 10 0).1 := by
  constructor
  · rw [get_ticks_num_linear O0 0 3 0 0 10 (by norm_num) (by norm_num)]
    simp only []
    rw [mem_pysorted, List.mem_map]
    refine ⟨0, ?_, by norm_num [tickPos]⟩
    rw [List.mem_filter, List.mem_range]
    refine ⟨Nat.succ_pos _, ?_⟩
    rw [majorAt_nat]
    simp
  · rw [get_ticks_num_linear O0 0 3 0 10 0 (by norm_num) (by norm_num)]
    simp only []
    rw [mem_pysorted, List.mem_map]
    rintro ⟨m, hm, hval⟩
    have hsgn : sgn 10 0 = -1 := if_neg (by norm_num)
    have htd : tdist 3 0 = 3 := by norm_num [tdist]
    rw [htd, hsgn] at hval
    unfold tickPos at hval
    have h3 : (3 * m : ℕ) = (10 : ℕ) := by
      have : ((3 * m : ℕ) : ℚ) = (10 : ℚ) := by push_cast; linarith
      exact_mod_cast this
    omega

theorem inRange_swap (mn mx p : ℚ) : inRange mx mn p = inRange mn mx p := by
  unfold inRange
  simp only [decide_eq_decide]
  tauto

theorem rawTicks_lst_swap (O : Oracles) (fuel : ℕ) (ml : List ℚ)
    (minor : TickSpec) (log : Bool) (mn mx : ℚ) :
    rawTicks O fuel (.lst ml) minor log mx mn
      = rawTicks O fuel (.lst ml) minor log mn mx := by
  cases minor with
  | num a =>
    simp only [rawTicks, fixMinor, List.filter_nil]
    rw [List.filter_congr (fun p _ => inRange_swap mn mx p)]
  | lst l =>
    simp only [rawTicks, fixMinor]
    have h1 : List.filter (inRange mx mn) ml = List.filter (inRange mn mx) ml :=
      List.filter_congr (fun p _ => inRange_swap mn mx p)
    rw [h1]
    have h2 : ∀ p ∈ l,
        (decide (inRange mx mn p = true ∧ p ∉ List.filter (inRange mn mx) ml))
          = (decide (inRange mn mx p = true ∧ p ∉ List.filter (inRange mn mx) ml)) := by
      intro p _
      simp only [decide_eq_decide]
      rw [inRange_swap mn mx p]
    rw [List.filter_congr h2]

theorem rawTicks_lst_const (O : Oracles) (fuel : ℕ) (ml : List ℚ)
    (minor : TickSpec) (log : Bool) (mn : ℚ) :
    (∀ q ∈ (rawTicks O fuel (.lst ml) minor log mn mn).1,
      q = (if log then O.lg mn else mn)) ∧
    (∀ q ∈ (rawTicks O fuel (.lst ml) minor log mn mn).2,
      q = (if log then O.lg mn else mn)) := by
  have hin : ∀ p : ℚ, inRange mn mn p = true → p = mn := by
    intro p hp
    unfold inRange at hp
    rcases of_decide_eq_true hp with ⟨h1, h2⟩ | ⟨h1, h2⟩ <;> linarith
  constructor <;> intro q hq <;> cases log <;>
    rcases minor with a | l <;>
    simp only [rawTicks, fixMinor, if_true, if_false, Bool.false_eq_true] at hq
  · exact hin q (List.mem_filter.mp hq).2
  · exact hin q (List.mem_filter.mp hq).2
  · obtain ⟨p, hp, rfl⟩ := List.mem_map.mp hq
    rw [hin p (List.mem_filter.mp hp).2]
    simp
  · obtain ⟨p, hp, rfl⟩ := List.mem_map.mp hq
    rw [hin p (List.mem_filter.mp hp).2]
    simp
  · simp at hq
  · have := (List.mem_filter.mp hq).2
    exact hin q (of_decide_eq_true this).1
  · simp at hq
  · obtain ⟨p, hp, rfl⟩ := List.mem_map.mp hq
    rw [hin p (of_decide_eq_true (List.mem_filter.mp hp).2).1]
    simp

/-- C5 (amended): both outputs are always sorted ascending when
`min <= max` and descending otherwise, in every mode; and in
explicit-list mode swapping min and max reverses each returned sequence
(hence preserves the set of positions).  In numeric mode the set is not
preserved (see the counterexample). -/
theorem C5_sort_direction_and_list_reverse (O : Oracles) (fuel : ℕ) (minor : TickSpec) (log : Bool)
    (mn mx : ℚ) :
    (∀ major : TickSpec,
      (¬ mx < mn →
        ((get_ticks O fuel major minor log mn mx).1.Sorted (· ≤ ·) ∧
         (get_ticks O fuel major minor log mn mx).2.Sorted (· ≤ ·))) ∧
      (mx < mn →
        ((get_ticks O fuel major minor log mn mx).1.Sorted (fun a b => b ≤ a) ∧
         (get_ticks O fuel major minor log mn mx).2.Sorted (fun a b => b ≤ a)))) ∧
    (∀ ml : List ℚ,
      get_ticks O fuel (.lst ml) minor log mx mn
        = ((get_ticks O fuel (.lst ml) minor log mn mx).1.reverse,
           (get_ticks O fuel (.lst ml) minor log mn mx).2.reverse)) := by
  constructor
  · intro major
    constructor
    · intro h
      have hflag : decide (mx < mn) = false := decide_eq_false h
      unfold get_ticks
      rw [hflag]
      exact ⟨pysorted_false_sorted _, pysorted_false_sorted _⟩
    · intro h
      have hflag : decide (mx < mn) = true := decide_eq_true h
      unfold get_ticks
      rw [hflag]
      exact ⟨pysorted_true_sorted _, pysorted_true_sorted _⟩
  · intro ml
    unfold get_ticks
    rw [rawTicks_lst_swap O fuel ml minor log mn mx]
    rcases lt_trichotomy mn mx with h | h | h
    · have h1 : decide (mx < mn) = false := decide_eq_false (not_lt.mpr h.le)
      have h2 : decide (mn < mx) = true := decide_eq_true h
      rw [h1, h2, pysorted_true_eq_reverse, pysorted_true_eq_reverse]
    · subst h
      have h1 : decide (mn < mn) = false := decide_eq_false (lt_irrefl mn)
      rw [h1]
      have hc := rawTicks_lst_const O fuel ml minor log mn
      refine Prod.ext ?_ ?_ <;> simp only []
      · exact (reverse_eq_self_of_const
          (fun q hq => hc.1 q (mem_pysorted.mp hq))).symm
      · exact (reverse_eq_self_of_const
          (fun q hq => hc.2 q (mem_pysorted.mp hq))).symm
    · have h1 : decide (mx < mn) = true := decide_eq_true h
      have h2 : decide (mn < mx) = false := decide_eq_false (not_lt.mpr h.le)
      rw [h1, h2, pysorted_true_eq_reverse, pysorted_true_eq_reverse,
          List.reverse_reverse, List.reverse_reverse]

/-- C6: in explicit-list mode every returned major tick is an element of
the major input list and lies within `[min,max]` direction-agnostically;
every returned minor tick is an element of the minor input list, in range,
and not among the returned majors; and when `log` is true both outputs are
(a sorted permutation of) the `log10` images of the selected values. -/
theorem C6_explicit_list_mode (O : Oracles) (fuel : ℕ) (ml mnl : List ℚ) (mn mx : ℚ) :
    (∀ q ∈ (get_ticks O fuel (.lst ml) (.lst mnl) false mn mx).1,
        q ∈ ml ∧ inRange mn mx q = true) ∧
    (∀ q ∈ (get_ticks O fuel (.lst ml) (.lst mnl) false mn mx).2,
        q ∈ mnl ∧ inRange mn mx q = true ∧
          q ∉ (get_ticks O fuel (.lst ml) (.lst mnl) false mn mx).1) ∧
    (List.Perm (get_ticks O fuel (.lst ml) (.lst mnl) true mn mx).1
        ((ml.filter (inRange mn mx)).map O.lg) ∧
     List.Perm (get_ticks O fuel (.lst ml) (.lst mnl) true mn mx).2
        ((mnl.filter (fun p =>
            decide (inRange mn mx p = true ∧ p ∉ ml.filter (inRange mn mx)))).map O.lg)) := by
  have hraw_false : rawTicks O fuel (.lst ml) (.lst mnl) false mn mx
      = (ml.filter (inRange mn mx),
         mnl.filter (fun p =>
           decide (inRange mn mx p = true ∧ p ∉ ml.filter (inRange mn mx)))) := by
    simp [rawTicks, fixMinor]
  have hraw_true : rawTicks O fuel (.lst ml) (.lst mnl) true mn mx
      = ((ml.filter (inRange mn mx)).map O.lg,
         (mnl.filter (fun p =>
           decide (inRange mn mx p = true ∧ p ∉ ml.filter (inRange mn mx)))).map O.lg) := by
    simp [rawTicks, fixMinor]
  refine ⟨?_, ?_, ?_, ?_⟩
  · intro q hq
    unfold get_ticks at hq
    rw [hraw_false] at hq
    simp only [] at hq
    rw [mem_pysorted, List.mem_filter] at hq
    exact ⟨hq.1, hq.2⟩
  · intro q hq
    unfold get_ticks at hq ⊢
    rw [hraw_false] at hq ⊢
    simp only [] at hq ⊢
    rw [mem_pysorted, List.mem_filter] at hq
    obtain ⟨hq1, hq2⟩ := hq
    obtain ⟨hin, hnot⟩ := of_decide_eq_true hq2
    refine ⟨hq1, hin, ?_⟩
    rw [mem_pysorted]
    exact hnot
  · unfold get_ticks
    rw [hraw_true]
    exact pysorted_perm _ _
  · unfold get_ticks
    rw [hraw_true]
    exact pysorted_perm _ _

/-- C9 (amended): the y-label pass blanks every y tick label and skips the
left-inset reservation precisely when the FIRST two labels overlap
vertically (`ylabels[0].top > ylabels[1].y`, line 580) — not when any two
consecutive labels overlap; the x-label pass blanks all x labels exactly
when its running scan finds a label whose left edge is below the previous
label's right edge.  No exception is raised (the model is total). -/
theorem C9_overlap_blanking (e : YLabelIn) (he : 1 < e.n) (hgrid : e.yGridOn = true) :
    ((updateLabelsY e).y_overlap = true ↔
      ((updateLabelsY e).pos.getD 1 (0, 0)).2
        < ((updateLabelsY e).pos.getD 0 (0, 0)).2
          + ((updateLabelsY e).sizes.getD 0 (0, 0)).2) ∧
    ((updateLabelsY e).y_overlap = true →
      (updateLabelsY e).texts = List.replicate e.n "" ∧
      (updateLabelsY e).x_next = e.padding + e.x
        + (match e.ylabelH with | some h => e.padding + h | none => 0)) ∧
    ((updateLabelsY e).y_overlap = false →
      (updateLabelsY e).texts = (List.range e.n).map e.texts) ∧
    (∀ e2 : XLabelIn, e2.n ≠ 0 → e2.xGridOn = true →
      ((updateLabelsX e2).x_overlap = true →
        (updateLabelsX e2).texts = List.replicate e2.n "") ∧
      ((updateLabelsX e2).x_overlap = false →
        (updateLabelsX e2).texts = (List.range e2.n).map e2.texts)) := by
  have hcond : e.n ≠ 0 ∧ e.yGridOn := ⟨by omega, by rw [hgrid]⟩
  refine ⟨?_, ?_, ?_, ?_⟩
  · unfold updateLabelsY
    rw [if_pos hcond]
    simp only []
    constructor
    · intro h
      have := of_decide_eq_true h
      exact this.2
    · intro h
      exact decide_eq_true ⟨he, h⟩
  · intro hov
    unfold updateLabelsY at hov ⊢
    rw [if_pos hcond] at hov ⊢
    simp only [] at hov ⊢
    rw [hov]
    simp
  · intro hov
    unfold updateLabelsY at hov ⊢
    rw [if_pos hcond] at hov ⊢
    simp only [] at hov ⊢
    rw [hov]
    simp
  · intro e2 hn hgrid2
    have hc : e2.n ≠ 0 ∧ e2.xGridOn := ⟨hn, by rw [hgrid2]⟩
    constructor
    · intro hov
      unfold updateLabelsX at hov ⊢
      rw [if_pos hc] at hov ⊢
      simp only [] at hov ⊢
      rw [hov]
      simp
    · intro hov
      unfold updateLabelsX at hov ⊢
      rw [if_pos hc] at hov ⊢
      simp only [] at hov ⊢
      rw [hov]
      simp

/-- Text-measurement oracle of the C9 counterexample: the middle label is
60 pixels tall, the others 4. -/
def measure9 : String → ℚ × ℚ := fun s => if s = "bb" then (10, 60) else (10, 4)

/-- Label texts of the C9 counterexample. -/
def texts9 : ℕ → String := fun k => if k = 1 then "bb" else if k = 0 then "a" else "c"

/-- Concrete y-label layout input on which labels 1 and 2 overlap but
labels 0 and 1 do not. -/
def E9 : YLabelIn :=
  { x := 0, y := 0, width := 100, height := 106, padding := 0,
    xlabelH := none, ylabelH := none, hasXGrid := false, yGridOn := true,
    measure := measure9, texts := texts9, n := 3, ypoints := [0, 5, 10],
    ymin := 0, ymax := 10, ylog := false, lg := fun q => q }

theorem E9_eval : updateLabelsY E9
    = { texts := ["a", "bb", "c"], pos := [(0, 2), (0, 52), (0, 102)],
        sizes := [(10, 4), (10, 60), (10, 4)], y_overlap := false,
        x_next := 10, y_next := 0, yextent := 104 } := by
  have h3 : List.range 3 = [0, 1, 2] := rfl
  have t0 : texts9 0 = "a" := rfl
  have t1 : texts9 1 = "bb" := rfl
  have t2 : texts9 2 = "c" := rfl
  have ha : measure9 "a" = (10, 4) := rfl
  have hb : measure9 "bb" = (10, 60) := rfl
  have hc : measure9 "c" = (10, 4) := rfl
  norm_num [updateLabelsY, E9, pyint, h3, t0, t1, t2, ha, hb, hc]

/-- C9 counterexample: in `E9` the consecutive labels 1 and 2 overlap
vertically (`top 112 > y 102`), yet the code does not blank the texts,
because line 580 only compares labels 0 and 1 (which do not overlap). -/
theorem C9_counterexample :
    ((updateLabelsY E9).pos.getD 2 (0, 0)).2
        < ((updateLabelsY E9).pos.getD 1 (0, 0)).2
          + ((updateLabelsY E9).sizes.getD 1 (0, 0)).2 ∧
    (updateLabelsY E9).texts ≠ List.replicate E9.n "" := by
  rw [E9_eval]
  refine ⟨by norm_num, ?_⟩
  intro h
  simp [E9] at h

/-- Oracle interpretation pinning `log10` and the `Decimal` power at the
rational points used by the two-decade log trace (`log10 1 = 0`,
`log10 100 = 2`, `10 ** -1 = 1/10`), matching the real functions there. -/
def O3 : Oracles :=
  ⟨fun q => if q = 100 then 2 else 0, fun _ => 0,
   fun q => if q = -1 then 1 / 10 else 0⟩

/-- C8: invalid tick configurations degrade silently: a numeric
`major <= 0` yields two empty outputs, and mixing a numeric major with a
list minor (or vice versa) behaves exactly as if the minor were `0.0`
(resp. the empty list), so only the major specification contributes. -/
theorem C8_invalid_specs (O : Oracles) (fuel : ℕ) (log : Bool) (mn mx : ℚ) :
    (∀ (a : ℚ) (minor : TickSpec), a ≤ 0 →
      get_ticks O fuel (.num a) minor log mn mx = ([], [])) ∧
    (∀ (a : ℚ) (l : List ℚ), get_ticks O fuel (.num a) (.lst l) log mn mx
        = get_ticks O fuel (.num a) (.num 0) log mn mx) ∧
    (∀ (a : ℚ) (l : List ℚ), get_ticks O fuel (.lst l) (.num a) log mn mx
        = get_ticks O fuel (.lst l) (.lst []) log mn mx) := by
  refine ⟨?_, ?_, ?_⟩
  · intro a minor ha
    cases minor <;>
      simp [get_ticks, rawTicks, fixMinor, not_lt.mpr ha, pysorted]
  · intro a l; rfl
  · intro a l; rfl

/-- C4 (amended): for a degenerate linear range `min == max` with numeric
`major > 0`, `_get_ticks` returns BOTH outputs empty — the `k = k2 = 1`
branch of lines 502-503 only truncates the still-empty lists, so no tick
is produced at the degenerate value. -/
theorem C4_degenerate_empty (O : Oracles) (fuel : ℕ) (mq minor mn : ℚ)
    (h : 0 < mq) :
    get_ticks O fuel (.num mq) (.num minor) false mn mn = ([], []) := by
  simp [get_ticks, rawTicks, fixMinor, h, pysorted]

/-- C4 counterexample: `_get_ticks(1, 0, False, 5, 5)` does not return a
single major tick at 5 with no minors; it returns `([], [])`. -/
theorem C4_counterexample :
    ¬ ((get_ticks O0 0 (.num 1) (.num 0) false 5 5).1 = [5] ∧
       (get_ticks O0 0 (.num 1) (.num 0) false 5 5).2 = ([] : List ℚ)) := by
  decide

/-- C7 (amended): on a degenerate range (equal transformed bounds) the
data-to-pixel ratio is 0 and `Plot.x_px` maps every value to the constant
pixel origin `size[0]`; but the pixel-to-data direction `Plot.unproject`
divides by the zero ratio and raises `ZeroDivisionError` (modelled as
`none`) for every degenerate x range. -/
theorem C7_degenerate_transform (O : Oracles) (xlog : Bool)
    (xmin xmax s0 s2 v : ℚ)
    (hdeg : funcx O xlog xmax = funcx O xlog xmin) :
    x_px O xlog xmin xmax s0 s2 v = s0 ∧
    (∀ (a b c s0h s1 s2h s3 px py : ℚ),
      unproject a a b c s0h s1 s2h s3 px py = none) := by
  constructor
  · unfold x_px
    simp [hdeg]
  · intro a b c s0h s1 s2h s3 px py
    simp [unproject]

/-- C7 counterexample: `Plot.unproject` on the degenerate range
`xmin = xmax = 5` divides by `ratiox = 0`, i.e. raises — so the claim
that neither direction raises a division-by-zero is false. -/
theorem C7_counterexample : unproject 5 5 0 1 0 0 100 100 7 7 = none := by
  norm_num [unproject]

/-- C2: for a non-degenerate axis (transformed `dmax != dmin`, nonzero
pixel span) and any value `v` in range, `Graph.to_data` applied to
`Plot.x_px` of `v` returns exactly `v`, in linear mode unconditionally and
in log mode for every `log10`/`10**` interpretation satisfying the inverse
law at `v`.  Exact equality over `ℚ` implies the claimed floating-point
tolerance. -/
theorem C2_roundtrip (O : Oracles) (xlog : Bool) (xmin xmax s0 s2 v : ℚ)
    (hnd : funcx O xlog xmax ≠ funcx O xlog xmin)
    (hpx : s2 ≠ s0)
    (hv : inRange xmin xmax v = true)
    (hinv : xlog = true → O.p10 (O.lg v) = v) :
    to_data_x O xlog xmin xmax s0 (s2 - s0) (x_px O xlog xmin xmax s0 s2 v)
      = v := by
  have hr : funcx O xlog xmax - funcx O xlog xmin ≠ 0 := sub_ne_zero.mpr hnd
  have hs : s2 - s0 ≠ 0 := sub_ne_zero.mpr hpx
  cases xlog with
  | false =>
    simp only [funcx] at hr ⊢
    simp only [Bool.false_eq_true, if_false] at hr ⊢
    unfold to_data_x x_px funcx
    simp only [Bool.false_eq_true, if_false]
    rw [if_pos hr]
    field_simp
    ring
  | true =>
    simp only [funcx, if_true] at hr
    unfold to_data_x x_px funcx
    simp only [if_true]
    rw [if_pos hr]
    have hexp : ((O.lg v - O.lg xmin) * ((s2 - s0) / (O.lg xmax - O.lg xmin))
          + s0 - s0) / (s2 - s0) * (O.lg xmax - O.lg xmin) + O.lg xmin
        = O.lg v := by
      field_simp
      ring
    rw [hexp, hinv rfl]

/-- C3 (code behaviour at the failing input): log-mode tick generation
with `min=1, max=100, major=1, minor=1` returns the major ticks
`[1, 2]` in log10 space (data values 10 and 100) and NO tick at the range
start `log10(1) = 0`, for every oracle interpretation agreeing with the
real `log10` and `Decimal` power at the pinned points.  This contradicts
the claim (and the `x_ticks_major` docstring's "there's always a major
tick at the start"). -/
theorem C3_log_decade_ticks (O : Oracles) (f : ℕ)
    (h1 : O.lg 1 = 0) (h2 : O.lg 100 = 2) (h3 : O.p10d (-1) = 1 / 10) :
    get_ticks O (f + 3) (.num 1) (.num 1) true 1 100 = ([1, 2], []) := by
  simp only [get_ticks, rawTicks, fixMinor, logTicks, h1, h2, h3]
  norm_num
  rw [h3]
  norm_num [pymod]
  have hc : ⌈(1:ℚ)/10⌉ = (1:ℤ) := by
    rw [Int.ceil_eq_iff] <;> norm_num
  rw [hc]
  norm_num
  simp only [logLoop]
  norm_num [pymod]
  decide

/-- Witness for C1: major 1, integer minor 0, range 0..2. -/
theorem C1_witness :
    (get_ticks O0 0 (.num 1) (.num ((0:ℕ) : ℚ)) false 0 2).1.length
        = (⌊|(2:ℚ) - 0| / 1⌋).toNat + 1 ∧
    ∀ i : ℕ,
      i + 1 < (get_ticks O0 0 (.num 1) (.num ((0:ℕ) : ℚ)) false 0 2).1.length →
      (get_ticks O0 0 (.num 1) (.num ((0:ℕ) : ℚ)) false 0 2).1.getD (i + 1) 0
        - (get_ticks O0 0 (.num 1) (.num ((0:ℕ) : ℚ)) false 0 2).1.getD i 0
        = 1 * sgn 0 2 :=
  C1_linear_major_count_spacing O0 0 1 0 2 0 (by norm_num) (by norm_num)

/-- Witness for C2: linear axis 0..10 over pixels 0..100 at the value 5. -/
theorem C2_witness :
    to_data_x O0 false 0 10 0 (100 - 0) (x_px O0 false 0 10 0 100 5) = 5 :=
  C2_roundtrip O0 false 0 10 0 100 5
    (by norm_num [funcx]) (by norm_num)
    (by unfold inRange; exact decide_eq_true (by norm_num))
    (by simp)

/-- Witness for C3: the pinned-oracle hypotheses are satisfiable (by `O3`),
and the two-decade log call indeed returns only the log positions 1, 2. -/
theorem C3_witness :
    get_ticks O3 3 (.num 1) (.num 1) true 1 100 = ([1, 2], []) :=
  C3_log_decade_ticks O3 0 (by norm_num [O3]) (by norm_num [O3])
    (by norm_num [O3])

/-- Witness for C4: a degenerate linear range at 7 produces no ticks. -/
theorem C4_witness : get_ticks O0 0 (.num 1) (.num 0) false 7 7 = ([], []) :=
  C4_degenerate_empty O0 0 1 0 7 (by norm_num)

/-- Witness for C5: concrete list-mode majors come out sorted ascending. -/
theorem C5_witness :
    (get_ticks O0 0 (.lst [1, 2]) (.lst []) false 0 10).1.Sorted (· ≤ ·) :=
  (((C5_sort_direction_and_list_reverse O0 0 (.lst []) false 0 10).1
      (.lst [1, 2])).1 (by norm_num)).1

/-- Witness for C6: the returned major tick 5 is a list element in range. -/
theorem C6_witness :
    (5 : ℚ) ∈ ([1, 5] : List ℚ) ∧ inRange 0 10 (5 : ℚ) = true := by
  have hr : rawTicks O0 0 (.lst [1, 5]) (.lst [2]) false 0 10
      = ([1, 5], [2]) := by
    norm_num [rawTicks, fixMinor, inRange]
  have h5 : (5 : ℚ) ∈ (get_ticks O0 0 (.lst [1, 5]) (.lst [2]) false 0 10).1 := by
    unfold get_ticks
    rw [hr]
    simp only []
    rw [mem_pysorted]
    norm_num
  exact (C6_explicit_list_mode O0 0 [1, 5] [2] 0 10).1 5 h5

/-- Witness for C7: a degenerate x range maps every value to pixel 0. -/
theorem C7_witness : x_px O0 false 5 5 0 100 7 = 0 :=
  (C7_degenerate_transform O0 false 5 5 0 100 7 rfl).1

/-- Witness for C8: a negative numeric major yields no ticks. -/
theorem C8_witness :
    get_ticks O0 0 (.num (-1)) (.num 5) false 0 10 = ([], []) :=
  (C8_invalid_specs O0 0 false 0 10).1 (-1) (.num 5) (by norm_num)

/-- Witness for C9: on `E9` the first two labels do not overlap, so the
texts are kept. -/
theorem C9_witness :
    (updateLabelsY E9).texts = (List.range E9.n).map E9.texts :=
  (C9_overlap_blanking E9 (by norm_num [E9]) rfl).2.2.1 (by rw [E9_eval])

/-- Witness for C10: membership characterization at the value 0 for
major 1, minor 0, range 0..2. -/
theorem C10_witness :
    (0 : ℚ) ∈ (get_ticks O0 0 (.num 1) (.num ((0:ℕ) : ℚ)) false 0 2).1
      ↔ ∃ m : ℕ, m ≤ (⌊|(2:ℚ) - 0| / tdist 1 0⌋).toNat ∧ (0 ≤ 1 ∨ 0 ∣ m) ∧
          (0 : ℚ) = (m : ℚ) * (tdist 1 0 * sgn 0 2) + 0 :=
  (C10_linear_partition O0 0 1 0 2 0 (by norm_num) (by norm_num)).1 0
